import Mathlib

/-!
Verification of the instance-composition and lifecycle-scoping engine described
by the elysiajs/skills documentation corpus.

The repository under verification is a documentation pack: it contains the
natural-language description of the composition engine (encapsulation scopes,
plugin deduplication, order-of-code, guards, parameterized traits) but not the
engine's executable implementation.  All definitions below are therefore
modelled from the spec: they follow the data model of spec sections 3 and 4
(InstanceNode, Hook, HookChain, DeduplicationRegistry, ScopeResolver,
TraitExpander) and, at the points where the spec text conflicts with the
documented scope table, the literal table of the source documentation
(the scope table of the skill file and the Descendant section).
-/

/-- Modelled from the spec: `EventKind` — the finite ordered set of pipeline
stages (pre-parse, pre-validate, pre-handle, post-handle, on-error, on-stop). -/
inductive EventKind where
  | preParse
  | preValidate
  | preHandle
  | postHandle
  | onError
  | onStop
deriving DecidableEq, Repr

/-- Position of a stage in the pipeline: chains run grouped by stage in this
order. -/
def EventKind.idx : EventKind → Nat
  | .preParse => 0
  | .preValidate => 1
  | .preHandle => 2
  | .postHandle => 3
  | .onError => 4
  | .onStop => 5

/-- Modelled from the spec: the three-tier visibility policy
(Local / Scoped / Global) of a declared hook. -/
inductive Scope where
  | loc
  | scoped
  | glob
deriving DecidableEq, Repr

/-- Modelled from the spec: a hook behavior `(Context) -> Context | HaltSignal`,
represented as first-order data so that chains are comparable and executable.
`tag` is an effect-free marker behavior, `haltWith` returns a HaltSignal
carrying a payload, `checkRole` is the parameterized trait behavior of the
authentication documentation (halts with Forbidden unless the request role
matches the instantiation parameter). -/
inductive Behavior where
  | pass
  | tag (label : String)
  | haltWith (payload : String)
  | checkRole (required : String)
deriving DecidableEq, Repr

/-- An entry of a finalized HookChain: the declared hook's identity, stage,
monotonic order number, the trait instantiation parameter when the entry was
produced by trait expansion, and the behavior. -/
structure ChainEntry where
  id : Nat
  event : EventKind
  order : Nat
  param : Option String
  behavior : Behavior
deriving DecidableEq, Repr

/-- A hook that is currently visible ("active") on an instance during
assembly, together with its effective scope on that instance.  On export one
level up, `scoped` demotes to `loc` and `glob` stays `glob`. -/
structure ActiveHook where
  id : Nat
  event : EventKind
  scope : Scope
  order : Nat
  behavior : Behavior
deriving DecidableEq, Repr

/-- The chain entry captured from an active hook at route-finalization time. -/
def ActiveHook.toEntry (h : ActiveHook) : ChainEntry :=
  ⟨h.id, h.event, h.order, none, h.behavior⟩

/-- Modelled from the spec: a finalized Route — path and frozen HookChain. -/
structure Route where
  path : String
  chain : List ChainEntry
deriving DecidableEq, Repr

/-- Modelled from the spec: a parameterized trait definition (a "macro").
Instantiating it with a parameter value produces a chain entry for the
referencing route only. -/
structure TraitDef where
  tname : String
  hookId : Nat
  event : EventKind
deriving DecidableEq, Repr

/-- Modelled from the spec: one declaration step of an instance's assembly
phase, in method-chaining order.  `useChild` composes another unit (with its
deduplication identity); `guard` applies a hook bundle to every route declared
inside its body, with an optional scope override. -/
inductive Step where
  | hookDecl (id : Nat) (event : EventKind) (sc : Scope) (behavior : Behavior)
  | routeDecl (path : String) (req : List String) (refs : List (String × String))
  | stateDecl (key : String)
  | decorate (cap : String)
  | traitDecl (t : TraitDef)
  | useChild (cname : Option String) (seed : Option Nat) (csteps : List Step)
  | guard (bundle : List (Nat × EventKind × Behavior)) (asScope : Option Scope)
      (body : List Step)

/-- Modelled from the spec: an InstanceNode definition — identity
(optional name, optional seed) and its ordered declaration steps. -/
structure InstanceDef where
  name : Option String
  seed : Option Nat
  steps : List Step

/-- Composing an instance into another via the `use` operation. -/
def useI (i : InstanceDef) : Step :=
  .useChild i.name i.seed i.steps

/-- Modelled from the spec: assembly-time errors.  `outOfFuel` is an artifact
of the bounded interpreter and never occurs for adequate fuel. -/
inductive AsmError where
  | missingDependency (path cap : String)
  | missingTrait (path tname : String)
  | outOfFuel
deriving DecidableEq, Repr

/-- A recorded registration in the DeduplicationRegistry: the identity key and
the capabilities and traits the first instantiation produced, attached on any
later mount of the same key instead of re-running registration. -/
structure RegEntry where
  key : String × Option Nat
  provided : List String
  traits : List TraitDef
deriving DecidableEq, Repr

/-- Tree-global assembly state: the monotonic order counter, the
DeduplicationRegistry, and the log of executed (side-effecting) registrations
by unit name. -/
structure BuildSt where
  counter : Nat
  registry : List RegEntry
  regLog : List String
deriving DecidableEq, Repr

/-- Per-instance accumulator during assembly: active hooks, finalized routes,
visible capabilities and shared-state keys (`provided`), and visible trait
definitions. -/
structure AccSt where
  hooks : List ActiveHook
  routes : List Route
  provided : List String
  traits : List TraitDef
deriving DecidableEq, Repr

def AccSt.empty : AccSt := ⟨[], [], [], []⟩

def BuildSt.init : BuildSt := ⟨0, [], []⟩

/-- Chain ordering key: stage first, then declaration order within a stage. -/
def entryLE (a b : ChainEntry) : Bool :=
  a.event.idx < b.event.idx || (a.event.idx == b.event.idx && a.order ≤ b.order)

/-- Stable insertion into a chain sorted by `entryLE`. -/
def insertEntry (e : ChainEntry) : List ChainEntry → List ChainEntry
  | [] => [e]
  | x :: xs => if entryLE e x then e :: x :: xs else x :: insertEntry e xs

/-- Finalization sort: group by stage in stage order, by `order` within a
stage. -/
def sortChain : List ChainEntry → List ChainEntry
  | [] => []
  | e :: rest => insertEntry e (sortChain rest)

def findTrait (ts : List TraitDef) (n : String) : Option TraitDef :=
  ts.find? (fun t => t.tname == n)

/-- Trait expansion for the references of one route: each reference
`(traitName, paramValue)` is instantiated with its parameter and inserted at
the order of the reference point; an undefined trait name is a missing-trait
assembly error. -/
def expandRefs (path : String) (ts : List TraitDef) (base : Nat) :
    Nat → List (String × String) → Except AsmError (List ChainEntry)
  | _, [] => .ok []
  | i, (tn, v) :: rest =>
    match findTrait ts tn with
    | none => .error (.missingTrait path tn)
    | some t =>
      match expandRefs path ts base (i + 1) rest with
      | .error e => .error e
      | .ok es => .ok (⟨t.hookId, t.event, base + i, some v, .checkRole v⟩ :: es)

/-- Missing-dependency check: every capability a route's behavior references
must be visible at assembly time. -/
def checkDeps (path : String) (provided : List String) :
    List String → Except AsmError Unit
  | [] => .ok ()
  | c :: cs =>
    if c ∈ provided then checkDeps path provided cs
    else .error (.missingDependency path c)

/-- Route finalization: check dependencies, expand trait references, capture
every currently-active hook, and freeze the sorted chain. -/
def finalizeRoute (g : BuildSt) (a : AccSt) (path : String) (req : List String)
    (refs : List (String × String)) : Except AsmError Route :=
  match checkDeps path a.provided req with
  | .error e => .error e
  | .ok _ =>
    match expandRefs path a.traits g.counter 0 refs with
    | .error e => .error e
    | .ok mes => .ok ⟨path, sortChain (a.hooks.map ActiveHook.toEntry ++ mes)⟩

/-- Export step of the ScopeResolver, one level up: local hooks stay behind,
scoped hooks demote to local on the composing node, global hooks propagate
unchanged. -/
def exportHook (h : ActiveHook) : Option ActiveHook :=
  match h.scope with
  | .loc => none
  | .scoped => some { h with scope := .loc }
  | .glob => some h

/-- Assign fresh monotonic order numbers to a list of hooks at their point of
declaration or import. -/
def stampHooks (g : BuildSt) : List ActiveHook → BuildSt × List ActiveHook
  | [] => (g, [])
  | h :: rest =>
    match stampHooks { g with counter := g.counter + 1 } rest with
    | (g2, rest2) => (g2, { h with order := g.counter } :: rest2)

/-- When a child's routes are merged into the composing node, the composing
node's hooks that are active at the composition point apply to them. -/
def mergeRoutes (parentHooks : List ActiveHook) (rs : List Route) : List Route :=
  rs.map (fun r => { r with chain := sortChain (parentHooks.map ActiveHook.toEntry ++ r.chain) })

def regKeyIs (n : String) (sd : Option Nat) (e : RegEntry) : Bool :=
  e.key.1 == n && e.key.2 == sd

/-- Modelled from the spec: the assembly interpreter.  It threads the
tree-global `BuildSt` (order counter, DeduplicationRegistry, registration log)
through the declaration steps of an instance, recursing into composed children
and guard bodies.  `fuel` bounds the recursion depth so that the interpreter
is a total structurally-recursive function; it is an artifact, not part of the
modelled engine. -/
def interp : Nat → List Step → BuildSt → AccSt → Except AsmError (BuildSt × AccSt)
  | _, [], g, a => .ok (g, a)
  | 0, _ :: _, _, _ => .error .outOfFuel
  | f + 1, s :: rest, g, a =>
    let res : Except AsmError (BuildSt × AccSt) :=
      match s with
      | .hookDecl i ev sc b =>
        .ok ({ g with counter := g.counter + 1 },
          { a with hooks := a.hooks ++ [⟨i, ev, sc, g.counter, b⟩] })
      | .routeDecl p req refs =>
        match finalizeRoute g a p req refs with
        | .error e => .error e
        | .ok r => .ok (g, { a with routes := a.routes ++ [r] })
      | .stateDecl k => .ok (g, { a with provided := a.provided ++ [k] })
      | .decorate c => .ok (g, { a with provided := a.provided ++ [c] })
      | .traitDecl t => .ok (g, { a with traits := a.traits ++ [t] })
      | .useChild cname sd cs =>
        match cname with
        | some n =>
          match g.registry.find? (regKeyIs n sd) with
          | some e =>
            .ok (g, { a with provided := a.provided ++ e.provided,
                             traits := a.traits ++ e.traits })
          | none =>
            match interp f cs g AccSt.empty with
            | .error e => .error e
            | .ok (g1, ca) =>
              match stampHooks
                  { g1 with
                    registry := g1.registry ++ [⟨(n, sd), ca.provided, ca.traits⟩],
                    regLog := g1.regLog ++ [n] }
                  (ca.hooks.filterMap exportHook) with
              | (g2, imported) =>
                .ok (g2,
                  { a with hooks := a.hooks ++ imported,
                           routes := a.routes ++ mergeRoutes a.hooks ca.routes,
                           provided := a.provided ++ ca.provided,
                           traits := a.traits ++ ca.traits })
        | none =>
          match interp f cs g AccSt.empty with
          | .error e => .error e
          | .ok (g1, ca) =>
            match stampHooks g1 (ca.hooks.filterMap exportHook) with
            | (g2, imported) =>
              .ok (g2,
                { a with hooks := a.hooks ++ imported,
                         routes := a.routes ++ mergeRoutes a.hooks ca.routes,
                         provided := a.provided ++ ca.provided,
                         traits := a.traits ++ ca.traits })
      | .guard bundle os body =>
        match stampHooks g (bundle.map (fun x => ⟨x.1, x.2.1, .loc, 0, x.2.2⟩)) with
        | (g1, ghooks) =>
          match interp f body g1 { a with hooks := a.hooks ++ ghooks } with
          | .error e => .error e
          | .ok (g2, a2) =>
            .ok (g2,
              { a2 with hooks :=
                  match os with
                  | none => a.hooks
                  | some sc => a.hooks ++ ghooks.map (fun h => { h with scope := sc }) })
    match res with
    | .error e => .error e
    | .ok (g', a') => interp f rest g' a'

/-- The effect of a single step at fuel `f`, split out of `interp` so that
lemmas can reason step by step.  Definitionally the inner match of `interp`. -/
def stepRes (f : Nat) (s : Step) (g : BuildSt) (a : AccSt) :
    Except AsmError (BuildSt × AccSt) :=
  match s with
  | .hookDecl i ev sc b =>
    .ok ({ g with counter := g.counter + 1 },
      { a with hooks := a.hooks ++ [⟨i, ev, sc, g.counter, b⟩] })
  | .routeDecl p req refs =>
    match finalizeRoute g a p req refs with
    | .error e => .error e
    | .ok r => .ok (g, { a with routes := a.routes ++ [r] })
  | .stateDecl k => .ok (g, { a with provided := a.provided ++ [k] })
  | .decorate c => .ok (g, { a with provided := a.provided ++ [c] })
  | .traitDecl t => .ok (g, { a with traits := a.traits ++ [t] })
  | .useChild cname sd cs =>
    match cname with
    | some n =>
      match g.registry.find? (regKeyIs n sd) with
      | some e =>
        .ok (g, { a with provided := a.provided ++ e.provided,
                         traits := a.traits ++ e.traits })
      | none =>
        match interp f cs g AccSt.empty with
        | .error e => .error e
        | .ok (g1, ca) =>
          match stampHooks
              { g1 with
                registry := g1.registry ++ [⟨(n, sd), ca.provided, ca.traits⟩],
                regLog := g1.regLog ++ [n] }
              (ca.hooks.filterMap exportHook) with
          | (g2, imported) =>
            .ok (g2,
              { a with hooks := a.hooks ++ imported,
                       routes := a.routes ++ mergeRoutes a.hooks ca.routes,
                       provided := a.provided ++ ca.provided,
                       traits := a.traits ++ ca.traits })
    | none =>
      match interp f cs g AccSt.empty with
      | .error e => .error e
      | .ok (g1, ca) =>
        match stampHooks g1 (ca.hooks.filterMap exportHook) with
        | (g2, imported) =>
          .ok (g2,
            { a with hooks := a.hooks ++ imported,
                     routes := a.routes ++ mergeRoutes a.hooks ca.routes,
                     provided := a.provided ++ ca.provided,
                     traits := a.traits ++ ca.traits })
  | .guard bundle os body =>
    match stampHooks g (bundle.map (fun x => ⟨x.1, x.2.1, .loc, 0, x.2.2⟩)) with
    | (g1, ghooks) =>
      match interp f body g1 { a with hooks := a.hooks ++ ghooks } with
      | .error e => .error e
      | .ok (g2, a2) =>
        .ok (g2,
          { a2 with hooks :=
              match os with
              | none => a.hooks
              | some sc => a.hooks ++ ghooks.map (fun h => { h with scope := sc }) })

/-- Fuel used to assemble whole trees in concrete scenarios. -/
def assembleFuel : Nat := 64

/-- Modelled from the spec: assemble a whole tree from a root instance
definition, starting from an empty registry and accumulator. -/
def assemble (i : InstanceDef) : Except AsmError (BuildSt × AccSt) :=
  interp assembleFuel i.steps BuildSt.init AccSt.empty

/-- Request context at execution time. -/
structure Ctx where
  role : String
deriving DecidableEq, Repr

/-- Outcome of one hook at request time: continue with a context, or a
HaltSignal carrying the terminal response payload. -/
inductive HookOut where
  | next (c : Ctx)
  | halt (payload : String)
deriving DecidableEq, Repr

def runBehavior : Behavior → Ctx → HookOut
  | .pass, c => .next c
  | .tag _, c => .next c
  | .haltWith p, _ => .halt p
  | .checkRole r, c => if c.role == r then .next c else .halt "Forbidden"

/-- Result of executing a finalized chain: the hooks that ran (by id, in
execution order), whether the route handler ran, and the response. -/
structure ExecResult where
  executed : List Nat
  handlerRan : Bool
  response : String
deriving DecidableEq, Repr

/-- Modelled from the spec: sequential chain execution with short-circuit
semantics — a HaltSignal stops the chain immediately, skipping all later
hooks and the handler, and its payload is the response. -/
def runChain : List ChainEntry → String → Ctx → ExecResult
  | [], hres, _ => ⟨[], true, hres⟩
  | e :: rest, hres, c =>
    match runBehavior e.behavior c with
    | .next c2 =>
      match runChain rest hres c2 with
      | r => ⟨e.id :: r.executed, r.handlerRan, r.response⟩
    | .halt p => ⟨[e.id], false, p⟩

/-- All hook ids appearing in chains of routes with the given path. -/
def chainIdsAt (a : AccSt) (p : String) : List Nat :=
  ((a.routes.filter (fun r => r.path == p)).map (fun r => r.chain.map (fun e => e.id))).flatten

/-- Whether the hook with the given id is in the finalized chain of some route
with the given path in an assembly result. -/
def hookVisible (res : Except AsmError (BuildSt × AccSt)) (p : String) (hid : Nat) : Bool :=
  match res with
  | .error _ => false
  | .ok (_, a) => (chainIdsAt a p).contains hid

/-- The finalized chains of all routes with the given path. -/
def chainsAt (res : Except AsmError (BuildSt × AccSt)) (p : String) : List (List ChainEntry) :=
  match res with
  | .error _ => []
  | .ok (_, a) => (a.routes.filter (fun r => r.path == p)).map (fun r => r.chain)

/-- How many times the named unit's side-effecting registration ran. -/
def regCount (res : Except AsmError (BuildSt × AccSt)) (n : String) : Nat :=
  match res with
  | .error _ => 0
  | .ok (g, _) => g.regLog.count n

/-- How many routes with the given path the assembled tree has. -/
def routeCount (res : Except AsmError (BuildSt × AccSt)) (p : String) : Nat :=
  match res with
  | .error _ => 0
  | .ok (_, a) => (a.routes.filter (fun r => r.path == p)).length

/-! ### Concrete composition scenarios from the documentation -/

/-- The `child` instance of the documented scope table: one route, no hooks. -/
def childNode : InstanceDef := ⟨none, none, [.routeDecl "/child" [] []]⟩

/-- The `current` instance of the documented scope table: declares the hook
under test (id 7) with the given scope, then composes `child`, then declares
its own route. -/
def currentNode (sc : Scope) : InstanceDef :=
  ⟨none, none, [.hookDecl 7 .preHandle sc .pass, useI childNode, .routeDecl "/current" [] []]⟩

/-- The `parent` instance of the documented scope table. -/
def parentNode (sc : Scope) : InstanceDef :=
  ⟨none, none, [useI (currentNode sc), .routeDecl "/parent" [] []]⟩

/-- The `main` instance of the documented scope table. -/
def mainNode (sc : Scope) : InstanceDef :=
  ⟨none, none, [useI (parentNode sc), .routeDecl "/main" [] []]⟩

/-- Visibility row of the scope table: is hook 7 in the chain of the route on
child, current, parent, main respectively. -/
def scopeRow (sc : Scope) : List Bool :=
  [hookVisible (assemble (mainNode sc)) "/child" 7,
   hookVisible (assemble (mainNode sc)) "/current" 7,
   hookVisible (assemble (mainNode sc)) "/parent" 7,
   hookVisible (assemble (mainNode sc)) "/main" 7]

/-- Variant of `current` with an extra route declared before the local hook,
to exhibit the order-of-code part of local visibility. -/
def currentNodeB : InstanceDef :=
  ⟨none, none, [.routeDecl "/early" [] [], .hookDecl 7 .preHandle .loc .pass,
    useI childNode, .routeDecl "/current" [] []]⟩

def parentNodeB : InstanceDef := ⟨none, none, [useI currentNodeB, .routeDecl "/parent" [] []]⟩

def mainNodeB : InstanceDef := ⟨none, none, [useI parentNodeB, .routeDecl "/main" [] []]⟩

/-- A unit named `db` with the given seed whose registration declares shared
state, a global hook, and a sub-route. -/
def dbUnit (sd : Option Nat) : InstanceDef :=
  ⟨some "db", sd,
    [.stateDecl "conn", .hookDecl 3 .preHandle .glob (.tag "db-init"), .routeDecl "/db" [] []]⟩

/-- Tree composing the same `(name, seed)` identity twice. -/
def twiceSame : InstanceDef :=
  ⟨none, none, [useI (dbUnit (some 1)), useI (dbUnit (some 1)), .routeDecl "/home" [] []]⟩

/-- Tree composing two units with the same name but different seeds. -/
def twiceDiff : InstanceDef :=
  ⟨none, none, [useI (dbUnit (some 1)), useI (dbUnit (some 2)), .routeDecl "/home" [] []]⟩

/-- A unit named `db` with no seed. -/
def capA : InstanceDef :=
  ⟨some "db", none, [.decorate "A", .hookDecl 4 .preHandle .glob .pass, .routeDecl "/a" [] []]⟩

/-- A different unit also named `db` with no seed. -/
def capB : InstanceDef :=
  ⟨some "db", none, [.decorate "B", .hookDecl 5 .preHandle .glob .pass, .routeDecl "/b" [] []]⟩

/-- Tree mounting two distinct seedless units that share the name `db`. -/
def nameOnly : InstanceDef :=
  ⟨none, none, [useI capA, useI capB, .routeDecl "/home" [] []]⟩

/-- The role-based parameterized trait scenario of the authentication
documentation: a `role` trait and routes referencing it with parameters
`admin` and `user`, plus a route with no reference. -/
def roleApp : InstanceDef :=
  ⟨none, none,
    [.traitDecl ⟨"role", 9, .preHandle⟩,
     .routeDecl "/admin" [] [("role", "admin")],
     .routeDecl "/user-only" [] [("role", "user")],
     .routeDecl "/open" [] []]⟩

/-- A unit exposing the `Auth` capability. -/
def authUnit : InstanceDef := ⟨some "auth", none, [.decorate "Auth"]⟩

/-- An instance whose route references `Auth` without composing `authUnit`. -/
def badConsumer : InstanceDef := ⟨none, none, [.routeDecl "/profile" ["Auth"] []]⟩

/-- The same consumer after explicitly declaring the dependency. -/
def goodConsumer : InstanceDef :=
  ⟨none, none, [useI authUnit, .routeDecl "/profile" ["Auth"] []]⟩

/-- The basic guard scenario of the authentication documentation: routes
before and after the guard call, and three routes inside its builder. -/
def guardApp : InstanceDef :=
  ⟨none, none,
    [.routeDecl "/public0" [] [],
     .guard [(11, .preHandle, .haltWith "401")] none
       [.routeDecl "/profile" [] [], .routeDecl "/settings" [] [], .routeDecl "/orders" [] []],
     .routeDecl "/public" [] []]⟩

/-! ### General lemmas about the assembly interpreter -/

theorem mem_insertEntry {x e : ChainEntry} {l : List ChainEntry} :
    x ∈ insertEntry e l ↔ x = e ∨ x ∈ l := by
  induction l with
  | nil => simp [insertEntry]
  | cons y ys ih =>
    simp only [insertEntry]
    by_cases h : entryLE e y
    · simp [h]
    · simp [h, ih]
      tauto

theorem mem_sortChain {x : ChainEntry} {l : List ChainEntry} :
    x ∈ sortChain l ↔ x ∈ l := by
  induction l with
  | nil => simp [sortChain]
  | cons y ys ih => simp [sortChain, mem_insertEntry, ih]

/-- One interpreter step: `interp` on a cons is the step's effect followed by
the rest. -/
theorem interp_cons (f : Nat) (s : Step) (rest : List Step) (g : BuildSt) (a : AccSt) :
    interp (f + 1) (s :: rest) g a =
      match stepRes f s g a with
      | .error e => .error e
      | .ok (g', a') => interp f rest g' a' := by
  cases s <;> rfl

/-- Active hooks only accumulate: no step removes a hook already visible on
the instance being built. -/
theorem stepRes_hooks (f : Nat) (s : Step) (g : BuildSt) (a : AccSt) (g' : BuildSt)
    (a' : AccSt) (h : stepRes f s g a = .ok (g', a')) :
    ∃ t, a'.hooks = a.hooks ++ t := by
  cases s with
  | hookDecl i ev sc b =>
    simp [stepRes] at h
    exact ⟨_, by rw [← h.2]⟩
  | routeDecl p req refs =>
    simp only [stepRes] at h
    cases hf : finalizeRoute g a p req refs with
    | error e => rw [hf] at h; simp at h
    | ok r =>
      rw [hf] at h
      simp at h
      exact ⟨[], by rw [← h.2]; simp⟩
  | stateDecl k =>
    simp [stepRes] at h
    exact ⟨[], by rw [← h.2]; simp⟩
  | decorate c =>
    simp [stepRes] at h
    exact ⟨[], by rw [← h.2]; simp⟩
  | traitDecl t =>
    simp [stepRes] at h
    exact ⟨[], by rw [← h.2]; simp⟩
  | useChild cname sd cs =>
    cases cname with
    | some n =>
      simp only [stepRes] at h
      cases hreg : g.registry.find? (regKeyIs n sd) with
      | some e =>
        rw [hreg] at h
        simp at h
        exact ⟨[], by rw [← h.2]; simp⟩
      | none =>
        rw [hreg] at h
        cases hc : interp f cs g AccSt.empty with
        | error e => rw [hc] at h; simp at h
        | ok pc =>
          obtain ⟨g1, ca⟩ := pc
          rw [hc] at h
          simp at h
          cases hst : stampHooks
              { g1 with
                registry := g1.registry ++ [⟨(n, sd), ca.provided, ca.traits⟩],
                regLog := g1.regLog ++ [n] }
              (ca.hooks.filterMap exportHook) with
          | mk g2 imported =>
            rw [hst] at h
            simp at h
            exact ⟨imported, by rw [← h.2]⟩
    | none =>
      simp only [stepRes] at h
      cases hc : interp f cs g AccSt.empty with
      | error e => rw [hc] at h; simp at h
      | ok pc =>
        obtain ⟨g1, ca⟩ := pc
        rw [hc] at h
        simp at h
        cases hst : stampHooks g1 (ca.hooks.filterMap exportHook) with
        | mk g2 imported =>
          rw [hst] at h
          simp at h
          exact ⟨imported, by rw [← h.2]⟩
  | guard bundle os body =>
    simp only [stepRes] at h
    cases hst : stampHooks g (bundle.map (fun x => ⟨x.1, x.2.1, .loc, 0, x.2.2⟩)) with
    | mk g1 ghooks =>
      rw [hst] at h
      cases hb : interp f body g1 { a with hooks := a.hooks ++ ghooks } with
      | error e => rw [hb] at h; simp at h
      | ok pb =>
        obtain ⟨g2, a2⟩ := pb
        rw [hb] at h
        simp at h
        cases os with
        | none => exact ⟨[], by rw [← h.2]; simp⟩
        | some sc => exact ⟨_, by rw [← h.2]⟩

/-- Finalized routes only accumulate: no step removes or rewrites a route
already captured.  `ihf` is the same property for the interpreter at the
next smaller fuel, used for guard bodies. -/
theorem stepRes_routes (f : Nat)
    (ihf : ∀ (l : List Step) (g : BuildSt) (a : AccSt) (g' : BuildSt) (a' : AccSt),
      interp f l g a = .ok (g', a') → ∃ t, a'.routes = a.routes ++ t)
    (s : Step) (g : BuildSt) (a : AccSt) (g' : BuildSt) (a' : AccSt)
    (h : stepRes f s g a = .ok (g', a')) :
    ∃ t, a'.routes = a.routes ++ t := by
  cases s with
  | hookDecl i ev sc b =>
    simp [stepRes] at h
    exact ⟨[], by rw [← h.2]; simp⟩
  | routeDecl p req refs =>
    simp only [stepRes] at h
    cases hf : finalizeRoute g a p req refs with
    | error e => rw [hf] at h; simp at h
    | ok r =>
      rw [hf] at h
      simp at h
      exact ⟨[r], by rw [← h.2]⟩
  | stateDecl k =>
    simp [stepRes] at h
    exact ⟨[], by rw [← h.2]; simp⟩
  | decorate c =>
    simp [stepRes] at h
    exact ⟨[], by rw [← h.2]; simp⟩
  | traitDecl t =>
    simp [stepRes] at h
    exact ⟨[], by rw [← h.2]; simp⟩
  | useChild cname sd cs =>
    cases cname with
    | some n =>
      simp only [stepRes] at h
      cases hreg : g.registry.find? (regKeyIs n sd) with
      | some e =>
        rw [hreg] at h
        simp at h
        exact ⟨[], by rw [← h.2]; simp⟩
      | none =>
        rw [hreg] at h
        cases hc : interp f cs g AccSt.empty with
        | error e => rw [hc] at h; simp at h
        | ok pc =>
          obtain ⟨g1, ca⟩ := pc
          rw [hc] at h
          simp at h
          cases hst : stampHooks
              { g1 with
                registry := g1.registry ++ [⟨(n, sd), ca.provided, ca.traits⟩],
                regLog := g1.regLog ++ [n] }
              (ca.hooks.filterMap exportHook) with
          | mk g2 imported =>
            rw [hst] at h
            simp at h
            exact ⟨mergeRoutes a.hooks ca.routes, by rw [← h.2]⟩
    | none =>
      simp only [stepRes] at h
      cases hc : interp f cs g AccSt.empty with
      | error e => rw [hc] at h; simp at h
      | ok pc =>
        obtain ⟨g1, ca⟩ := pc
        rw [hc] at h
        simp at h
        cases hst : stampHooks g1 (ca.hooks.filterMap exportHook) with
        | mk g2 imported =>
          rw [hst] at h
          simp at h
          exact ⟨mergeRoutes a.hooks ca.routes, by rw [← h.2]⟩
  | guard bundle os body =>
    simp only [stepRes] at h
    cases hst : stampHooks g (bundle.map (fun x => ⟨x.1, x.2.1, .loc, 0, x.2.2⟩)) with
    | mk g1 ghooks =>
      rw [hst] at h
      cases hb : interp f body g1 { a with hooks := a.hooks ++ ghooks } with
      | error e => rw [hb] at h; simp at h
      | ok pb =>
        obtain ⟨g2, a2⟩ := pb
        rw [hb] at h
        simp at h
        obtain ⟨t, ht⟩ := ihf body g1 { a with hooks := a.hooks ++ ghooks } g2 a2 hb
        refine ⟨t, ?_⟩
        rw [← h.2]
        cases os with
        | none => simpa using ht
        | some sc => simpa using ht

/-- Frame property of assembly: once a route is captured in the accumulator,
every later declaration step leaves it (and its frozen chain) in place. -/
theorem routes_mono : ∀ (f : Nat) (l : List Step) (g : BuildSt) (a : AccSt)
    (g' : BuildSt) (a' : AccSt),
    interp f l g a = .ok (g', a') → ∃ t, a'.routes = a.routes ++ t := by
  intro f
  induction f with
  | zero =>
    intro l g a g' a' h
    cases l with
    | nil =>
      simp [interp] at h
      exact ⟨[], by rw [← h.2]; simp⟩
    | cons s rest => simp [interp] at h
  | succ f ih =>
    intro l g a g' a' h
    cases l with
    | nil =>
      simp [interp] at h
      exact ⟨[], by rw [← h.2]; simp⟩
    | cons s rest =>
      rw [interp_cons] at h
      cases hs : stepRes f s g a with
      | error e => rw [hs] at h; simp at h
      | ok p =>
        obtain ⟨g1, a1⟩ := p
        rw [hs] at h
        simp at h
        obtain ⟨t1, ht1⟩ := stepRes_routes f ih s g a g1 a1 hs
        obtain ⟨t2, ht2⟩ := ih rest g1 a1 g' a' h
        exact ⟨t1 ++ t2, by rw [ht2, ht1, List.append_assoc]⟩

/-- Hooks visible on the instance being built only accumulate across its
declaration steps. -/
theorem hooks_mono : ∀ (f : Nat) (l : List Step) (g : BuildSt) (a : AccSt)
    (g' : BuildSt) (a' : AccSt),
    interp f l g a = .ok (g', a') → ∃ t, a'.hooks = a.hooks ++ t := by
  intro f
  induction f with
  | zero =>
    intro l g a g' a' h
    cases l with
    | nil =>
      simp [interp] at h
      exact ⟨[], by rw [← h.2]; simp⟩
    | cons s rest => simp [interp] at h
  | succ f ih =>
    intro l g a g' a' h
    cases l with
    | nil =>
      simp [interp] at h
      exact ⟨[], by rw [← h.2]; simp⟩
    | cons s rest =>
      rw [interp_cons] at h
      cases hs : stepRes f s g a with
      | error e => rw [hs] at h; simp at h
      | ok p =>
        obtain ⟨g1, a1⟩ := p
        rw [hs] at h
        simp at h
        obtain ⟨t1, ht1⟩ := stepRes_hooks f s g a g1 a1 hs
        obtain ⟨t2, ht2⟩ := ih rest g1 a1 g' a' h
        exact ⟨t1 ++ t2, by rw [ht2, ht1, List.append_assoc]⟩

/-- Interpreting a concatenation of declaration sequences is interpreting the
first, then the second from the resulting state. -/
theorem interp_append : ∀ (l1 l2 : List Step) (f : Nat) (g : BuildSt) (a : AccSt),
    interp f (l1 ++ l2) g a =
      match interp f l1 g a with
      | .error e => .error e
      | .ok (g1, a1) => interp (f - l1.length) l2 g1 a1 := by
  intro l1
  induction l1 with
  | nil =>
    intro l2 f g a
    simp [interp]
  | cons s l1' ih =>
    intro l2 f g a
    cases f with
    | zero => simp [interp]
    | succ f =>
      rw [List.cons_append, interp_cons, interp_cons]
      cases hs : stepRes f s g a with
      | error e => simp
      | ok p =>
        obtain ⟨g1, a1⟩ := p
        simp only
        rw [ih]
        have : f + 1 - (s :: l1').length = f - l1'.length := by
          simp [List.length_cons, Nat.succ_sub_succ]
        rw [this]

/-- A successfully finalized route carries the declared path and an entry for
every hook active at its declaration point. -/
theorem finalizeRoute_ok (g : BuildSt) (a : AccSt) (p : String) (req : List String)
    (refs : List (String × String)) (r : Route)
    (h : finalizeRoute g a p req refs = .ok r) :
    r.path = p ∧ ∀ hk ∈ a.hooks, ActiveHook.toEntry hk ∈ r.chain := by
  simp only [finalizeRoute] at h
  cases hd : checkDeps p a.provided req with
  | error e => rw [hd] at h; simp at h
  | ok u =>
    rw [hd] at h
    cases he : expandRefs p a.traits g.counter 0 refs with
    | error e => rw [he] at h; simp at h
    | ok mes =>
      rw [he] at h
      simp at h
      constructor
      · rw [← h]
      · intro hk hmem
        rw [← h]
        simp only [mem_sortChain]
        exact List.mem_append_left _ (List.mem_map_of_mem _ hmem)

/-! ### Claim theorems -/

/-- Claim C1: for the composition chain child into current into parent into
main, a hook declared on `current` with scope local is in the finalized
chains of the routes on child and current only; with scope scoped also on
parent; with scope global also on main — the literal scope propagation table
of the documentation. -/
theorem c1_scope_table :
    scopeRow .loc = [true, true, false, false] ∧
    scopeRow .scoped = [true, true, true, false] ∧
    scopeRow .glob = [true, true, true, true] :=
  ⟨rfl, rfl, rfl⟩

/-- Claim C2, counterexample: the claim says a Local hook is never visible to
routes on a descendant of its defining node, but the route `/child` — declared
on `childNode`, a descendant composed into `current` — does contain the local
hook declared on `current` (hook id 7), exactly as the documentation's scope
table requires. -/
theorem c2_local_descendant_counterexample :
    hookVisible (assemble (mainNode .loc)) "/child" 7 = true := rfl

/-- Claim C2 as amended: a Local hook on node D is visible to routes declared
on D after the hook's order and to routes of descendants composed into D
after the hook's declaration; it is not visible to routes declared on D
before the hook, nor to routes on any ancestor of D. -/
theorem c2_local_scope_amended :
    hookVisible (assemble mainNodeB) "/early" 7 = false ∧
    hookVisible (assemble mainNodeB) "/child" 7 = true ∧
    hookVisible (assemble mainNodeB) "/current" 7 = true ∧
    hookVisible (assemble mainNodeB) "/parent" 7 = false ∧
    hookVisible (assemble mainNodeB) "/main" 7 = false :=
  ⟨rfl, rfl, rfl, rfl, rfl⟩

/-- Claim C3: composing the unit with identity (name db, seed 1) twice runs
its side-effecting registration exactly once and declares its sub-route once;
composing (db, seed 1) then (db, seed 2) runs registration twice and declares
the sub-route twice, independently. -/
theorem c3_dedup_registration_runs :
    regCount (assemble twiceSame) "db" = 1 ∧ routeCount (assemble twiceSame) "/db" = 1 ∧
    regCount (assemble twiceDiff) "db" = 2 ∧ routeCount (assemble twiceDiff) "/db" = 2 :=
  ⟨rfl, rfl, rfl, rfl⟩

/-- Claim C4: first conjunct — a route captured at some point of assembly is
still present, with its frozen chain unchanged, after any further declaration
steps (so a hook declared after the route never enters its chain); second
conjunct — a hook declared on a node before a route of the same node is
present in that route's finalized chain in the final assembly. -/
theorem c4_order_of_code :
    (∀ (f : Nat) (pre post : List Step) (g g1 g2 : BuildSt) (a a1 a2 : AccSt) (r : Route),
        interp f pre g a = .ok (g1, a1) →
        interp f (pre ++ post) g a = .ok (g2, a2) →
        r ∈ a1.routes → r ∈ a2.routes) ∧
    (∀ (f : Nat) (pre mid post : List Step) (hid : Nat) (ev : EventKind) (sc : Scope)
        (b : Behavior) (p : String) (req : List String) (refs : List (String × String))
        (g g2 : BuildSt) (a a2 : AccSt),
        interp f (pre ++ .hookDecl hid ev sc b :: (mid ++ .routeDecl p req refs :: post)) g a
          = .ok (g2, a2) →
        ∃ r, r ∈ a2.routes ∧ r.path = p ∧ ∃ e, e ∈ r.chain ∧ e.id = hid) := by
  constructor
  · intro f pre post g g1 g2 a a1 a2 r hpre htot hr
    rw [interp_append, hpre] at htot
    obtain ⟨t, ht⟩ := routes_mono _ _ _ _ _ _ htot
    rw [ht]
    exact List.mem_append_left _ hr
  · intro f pre mid post hid ev sc b p req refs g g2 a a2 h
    rw [interp_append] at h
    cases hpre : interp f pre g a with
    | error e => rw [hpre] at h; simp at h
    | ok pp =>
      obtain ⟨gp, ap⟩ := pp
      rw [hpre] at h
      simp only at h
      cases hf1 : f - pre.length with
      | zero => rw [hf1] at h; simp [interp] at h
      | succ f1 =>
        rw [hf1, interp_cons] at h
        simp only [stepRes] at h
        rw [interp_append] at h
        cases hmid : interp f1 mid { gp with counter := gp.counter + 1 }
            { ap with hooks := ap.hooks ++ [⟨hid, ev, sc, gp.counter, b⟩] } with
        | error e => rw [hmid] at h; simp at h
        | ok pm =>
          obtain ⟨g3, a3⟩ := pm
          rw [hmid] at h
          simp only at h
          obtain ⟨th, hth⟩ := hooks_mono _ _ _ _ _ _ hmid
          have hH : (⟨hid, ev, sc, gp.counter, b⟩ : ActiveHook) ∈ a3.hooks := by
            rw [hth]; simp
          cases hf2 : f1 - mid.length with
          | zero => rw [hf2] at h; simp [interp] at h
          | succ f2 =>
            rw [hf2, interp_cons] at h
            simp only [stepRes] at h
            cases hfin : finalizeRoute g3 a3 p req refs with
            | error e => rw [hfin] at h; simp at h
            | ok r =>
              rw [hfin] at h
              simp only at h
              obtain ⟨hpath, hmem⟩ := finalizeRoute_ok _ _ _ _ _ _ hfin
              obtain ⟨t, ht⟩ := routes_mono _ _ _ _ _ _ h
              refine ⟨r, ?_, hpath,
                ⟨ActiveHook.toEntry ⟨hid, ev, sc, gp.counter, b⟩, hmem _ hH, rfl⟩⟩
              rw [ht]
              simp

/-- Witness for C4: both conjuncts applied at concrete assemblies — a route
`/r` captured before a later hook declaration survives unchanged, and a route
`/p` declared after hook 5 carries hook 5 in its chain. -/
theorem c4_order_of_code_witness :
    ((⟨"/r", []⟩ : Route) ∈
      (⟨[⟨5, .preHandle, .loc, 0, .pass⟩], [⟨"/r", []⟩], [], []⟩ : AccSt).routes) ∧
    (∃ r, r ∈ (⟨[⟨5, .preHandle, .loc, 0, .pass⟩],
        [⟨"/p", [⟨5, .preHandle, 0, none, .pass⟩]⟩], [], []⟩ : AccSt).routes ∧
      r.path = "/p" ∧ ∃ e, e ∈ r.chain ∧ e.id = 5) := by
  constructor
  · exact c4_order_of_code.1 10 [.routeDecl "/r" [] []] [.hookDecl 5 .preHandle .loc .pass]
      BuildSt.init BuildSt.init ⟨1, [], []⟩ AccSt.empty ⟨[], [⟨"/r", []⟩], [], []⟩
      ⟨[⟨5, .preHandle, .loc, 0, .pass⟩], [⟨"/r", []⟩], [], []⟩ ⟨"/r", []⟩ rfl rfl (by simp)
  · exact c4_order_of_code.2 10 [] [] [] 5 .preHandle .loc .pass "/p" [] []
      BuildSt.init ⟨1, [], []⟩ AccSt.empty
      ⟨[⟨5, .preHandle, .loc, 0, .pass⟩], [⟨"/p", [⟨5, .preHandle, 0, none, .pass⟩]⟩], [], []⟩ rfl

/-- Claim C5: in a chain of three hooks where the first continues and the
second halts with payload `p`, execution runs the first and second hooks,
never the third and never the handler, and the response is exactly `p`. -/
theorem c5_halt_short_circuit (e1 e2 e3 : ChainEntry) (hres p : String) (c c2 : Ctx)
    (h1 : runBehavior e1.behavior c = .next c2)
    (h2 : runBehavior e2.behavior c2 = .halt p) :
    runChain [e1, e2, e3] hres c = ⟨[e1.id, e2.id], false, p⟩ := by
  simp [runChain, h1, h2]

/-- Witness for C5: a concrete chain whose second hook halts with payload
`denied`. -/
theorem c5_halt_short_circuit_witness :
    runChain [⟨1, .preHandle, 0, none, .pass⟩, ⟨2, .preHandle, 1, none, .haltWith "denied"⟩,
      ⟨3, .preHandle, 2, none, .pass⟩] "handled" ⟨"user"⟩ = ⟨[1, 2], false, "denied"⟩ :=
  c5_halt_short_circuit ⟨1, .preHandle, 0, none, .pass⟩
    ⟨2, .preHandle, 1, none, .haltWith "denied"⟩ ⟨3, .preHandle, 2, none, .pass⟩
    "handled" "denied" ⟨"user"⟩ ⟨"user"⟩ rfl rfl

/-- Claim C6: against the parameterized trait `role`, the route referencing
`role: admin` gets exactly the trait's hook instantiated with `admin`, the
route referencing `role: user` gets the `user` instantiation, the two entries
differ, and the route with no reference gets an empty chain — the expansion
reaches only the referencing route. -/
theorem c6_trait_expansion :
    chainsAt (assemble roleApp) "/admin"
      = [[⟨9, .preHandle, 0, some "admin", .checkRole "admin"⟩]] ∧
    chainsAt (assemble roleApp) "/user-only"
      = [[⟨9, .preHandle, 0, some "user", .checkRole "user"⟩]] ∧
    chainsAt (assemble roleApp) "/open" = [[]] ∧
    (⟨9, .preHandle, 0, some "admin", .checkRole "admin"⟩ : ChainEntry)
      ≠ ⟨9, .preHandle, 0, some "user", .checkRole "user"⟩ :=
  ⟨rfl, rfl, rfl, by decide⟩

/-- Claim C7: a route referencing the capability `Auth` with no ancestor
exposing it makes assembly fail with a missing-dependency error (so no tree —
and hence no request-time chain — exists), while the same route succeeds once
the dependency is composed first. -/
theorem c7_missing_dependency :
    assemble badConsumer = .error (.missingDependency "/profile" "Auth") ∧
    routeCount (assemble goodConsumer) "/profile" = 1 :=
  ⟨rfl, rfl⟩

/-- Claim C8: two distinct seedless units both named `db` are deduplicated by
name alone — the second mount's registration does not run, so its sub-route
`/b` is never declared. -/
theorem c8_name_only_dedup :
    regCount (assemble nameOnly) "db" = 1 ∧
    routeCount (assemble nameOnly) "/a" = 1 ∧
    routeCount (assemble nameOnly) "/b" = 0 :=
  ⟨rfl, rfl, rfl⟩

/-- Claim C9: declaring the same route definition twice against an identical
tree state finalizes two byte-for-byte identical routes — route finalization
reads the assembly state but changes nothing that feeds back into a chain. -/
theorem c9_finalize_idempotent : ∀ (f : Nat) (p : String) (req : List String)
    (refs : List (String × String)) (g g' : BuildSt) (a a' : AccSt),
    interp (f + 2) [.routeDecl p req refs, .routeDecl p req refs] g a = .ok (g', a') →
    ∃ r, a'.routes = a.routes ++ [r, r] := by
  intro f p req refs g g' a a' h
  rw [show f + 2 = (f + 1) + 1 from rfl, interp_cons] at h
  simp only [stepRes] at h
  cases hfin : finalizeRoute g a p req refs with
  | error e => rw [hfin] at h; simp at h
  | ok r =>
    rw [hfin] at h
    simp only at h
    rw [interp_cons] at h
    simp only [stepRes] at h
    have hsame : finalizeRoute g { a with routes := a.routes ++ [r] } p req refs
        = finalizeRoute g a p req refs := rfl
    rw [hsame, hfin] at h
    simp [interp] at h
    exact ⟨r, by rw [← h.2]⟩

/-- Witness for C9: the route `/x` declared twice yields two identical
finalized routes. -/
theorem c9_finalize_idempotent_witness :
    ∃ r, (⟨[], [⟨"/x", []⟩, ⟨"/x", []⟩], [], []⟩ : AccSt).routes
      = AccSt.empty.routes ++ [r, r] :=
  c9_finalize_idempotent 8 "/x" [] [] BuildSt.init BuildSt.init AccSt.empty
    ⟨[], [⟨"/x", []⟩, ⟨"/x", []⟩], [], []⟩ rfl

/-- Claim C10: a guard with no scope override contributes its bundle hook to
every route declared inside its builder and to no route declared on the
composing instance outside it, whether before or after the guard call. -/
theorem c10_guard_frame :
    hookVisible (assemble guardApp) "/profile" 11 = true ∧
    hookVisible (assemble guardApp) "/settings" 11 = true ∧
    hookVisible (assemble guardApp) "/orders" 11 = true ∧
    hookVisible (assemble guardApp) "/public0" 11 = false ∧
    hookVisible (assemble guardApp) "/public" 11 = false :=
  ⟨rfl, rfl, rfl, rfl, rfl⟩
